import Mathlib

/-!
Verification development for the StormByte buffer library.

The definitions below are a shallow embedding of the C++ sources:
`FIFO` mirrors `src/lib/public/StormByte/buffer/fifo.cxx` (a growable byte
store `m_buffer` with a read cursor `m_position_offset`), `SharedFIFO`
mirrors `src/lib/public/StormByte/buffer/shared_fifo.cxx` (the same store
plus `m_closed` / `m_error` flags; mutex and condition variable are not
modelled, a call that would block on the condition variable is reported as
`blocked` with the state unchanged), and `Pipeline` mirrors
`src/lib/public/StormByte/buffer/pipeline.cxx` (stage list, intermediate
producer list, worker-thread list; the concurrent execution of stage
bodies is outside the embedding, the orchestrator state is modelled
faithfully). Bytes are opaque and represented as `Nat`.
-/

namespace StormByteBuffer

abbrev Byte := Nat

/-- Seek mode, as used by `FIFO::Seek(offset, mode)`. -/
inductive Position
  | Absolute
  | Relative
deriving DecidableEq

/-- Read-side failure reasons, one per distinct error produced by the
sources: "Insufficient data to read/peek", "Buffer in error state",
"End of file reached". -/
inductive ReadError
  | insufficientData
  | errorState
  | endOfFile
deriving DecidableEq

/-- Result of a `FIFO` read-family call. -/
inductive ReadResult
  | ok (data : List Byte)
  | err (e : ReadError)
deriving DecidableEq

/-- Write-side failure: "Buffer is closed or in error state". -/
inductive WriteError
  | closedOrError
deriving DecidableEq

/-- Result of a write call. -/
inductive WriteResult
  | ok
  | err (e : WriteError)
deriving DecidableEq

/-- `FIFO` state: the byte store `m_buffer` and read cursor
`m_position_offset`. -/
structure FIFO where
  buffer : List Byte
  pos : Nat
deriving DecidableEq

/-- Default-constructed `FIFO()`: empty store, cursor 0. -/
def FIFO.init : FIFO := ⟨[], 0⟩

/-- `FIFO::AvailableBytes`: bytes from the cursor to the end, with the
source's guard against an out-of-range cursor. -/
def FIFO.AvailableBytes (f : FIFO) : Nat :=
  if f.pos ≤ f.buffer.length then f.buffer.length - f.pos else 0

/-- `FIFO::Size`: total stored bytes. -/
def FIFO.Size (f : FIFO) : Nat := f.buffer.length

/-- `FIFO::Empty`. -/
def FIFO.IsEmpty (f : FIFO) : Bool := f.buffer.isEmpty

/-- `FIFO::Clear`: drop everything, cursor 0. -/
def FIFO.Clear (_f : FIFO) : FIFO := ⟨[], 0⟩

/-- `FIFO::Clean`: when `0 < pos ≤ size`, keep only the bytes from the
cursor on (both sub-branches of the source amount to dropping `pos`
bytes); otherwise the source's failsafe branch clears the whole store.
The cursor is reset to 0 in every case. -/
def FIFO.Clean (f : FIFO) : FIFO :=
  if 0 < f.pos ∧ f.pos ≤ f.buffer.length then ⟨f.buffer.drop f.pos, 0⟩
  else ⟨[], 0⟩

/-- `FIFO::Read(count)`: fails when nothing is available; `count == 0`
means all available bytes; a non-zero `count` larger than what is
available fails; on success the cursor advances by the amount read. -/
def FIFO.Read (f : FIFO) (count : Nat) : ReadResult × FIFO :=
  let available := f.AvailableBytes
  if available = 0 then (.err .insufficientData, f)
  else
    let real_count := if count = 0 then available else count
    if available < real_count then (.err .insufficientData, f)
    else (.ok ((f.buffer.drop f.pos).take real_count), ⟨f.buffer, f.pos + real_count⟩)

/-- `FIFO::Peek(count)`: same availability rules as `Read` but the cursor
does not move. -/
def FIFO.Peek (f : FIFO) (count : Nat) : ReadResult × FIFO :=
  let available := f.AvailableBytes
  if available = 0 then (.err .insufficientData, f)
  else
    let real_count := if count = 0 then available else count
    if available < real_count then (.err .insufficientData, f)
    else (.ok ((f.buffer.drop f.pos).take real_count), f)

/-- `FIFO::Extract(count)`: same availability rules as `Read`; on success
the returned bytes are removed from the store at the cursor position and
the cursor stays where it is. -/
def FIFO.Extract (f : FIFO) (count : Nat) : ReadResult × FIFO :=
  let available := f.AvailableBytes
  if available = 0 then (.err .insufficientData, f)
  else
    let real_count := if count = 0 then available else count
    if available < real_count then (.err .insufficientData, f)
    else
      (.ok ((f.buffer.drop f.pos).take real_count),
        ⟨f.buffer.take f.pos ++ f.buffer.drop (f.pos + real_count), f.pos⟩)

/-- `FIFO::Write(data)`: append to the end; always succeeds on a plain
`FIFO` (the empty-input early return is semantically an append too). -/
def FIFO.Write (f : FIFO) (data : List Byte) : FIFO :=
  if data.isEmpty then f else ⟨f.buffer ++ data, f.pos⟩

/-- `FIFO::Seek(offset, mode)`: `Absolute` targets `offset`, `Relative`
targets `pos + offset`; the target is clamped to `[0, size]`. -/
def FIFO.Seek (f : FIFO) (offset : Int) (mode : Position) : FIFO :=
  let new_offset : Int :=
    match mode with
    | .Absolute => offset
    | .Relative => (f.pos : Int) + offset
  if new_offset < 0 then ⟨f.buffer, 0⟩
  else if (f.buffer.length : Int) < new_offset then ⟨f.buffer, f.buffer.length⟩
  else ⟨f.buffer, new_offset.toNat⟩

/-- `FIFO::Skip(count)`: no-op for `count == 0`; otherwise advance the
cursor by `count` clamped to the store size and then `Clean()`. -/
def FIFO.Skip (f : FIFO) (count : Nat) : FIFO :=
  if count = 0 then f
  else
    let f2 : FIFO :=
      if f.buffer.length ≤ f.pos + count then ⟨f.buffer, f.buffer.length⟩
      else ⟨f.buffer, f.pos + count⟩
    f2.Clean

/-- Outcome of a `SharedFIFO` read-family call; `blocked` stands for a
call that enters `Wait` on the condition variable (in the sequential
embedding the state is unchanged while the caller waits). -/
inductive ReadOutcome
  | ok (data : List Byte)
  | err (e : ReadError)
  | blocked
deriving DecidableEq

/-- `SharedFIFO` state: the underlying `FIFO` plus the `m_closed` and
`m_error` flags (both initially false). -/
structure SharedFIFO where
  fifo : FIFO
  closed : Bool
  error : Bool
deriving DecidableEq

/-- Default-constructed `SharedFIFO()`. -/
def SharedFIFO.init : SharedFIFO := ⟨FIFO.init, false, false⟩

/-- `SharedFIFO::AvailableBytes` (delegates to the `FIFO` store). -/
def SharedFIFO.AvailableBytes (s : SharedFIFO) : Nat := s.fifo.AvailableBytes

/-- `SharedFIFO::Size`. -/
def SharedFIFO.Size (s : SharedFIFO) : Nat := s.fifo.Size

/-- `SharedFIFO::Close`: set `m_closed` and notify waiters. -/
def SharedFIFO.Close (s : SharedFIFO) : SharedFIFO := { s with closed := true }

/-- `SharedFIFO::SetError`: set `m_error` and notify waiters. -/
def SharedFIFO.SetError (s : SharedFIFO) : SharedFIFO := { s with error := true }

/-- `SharedFIFO::EoF`: `m_error || (m_closed && AvailableBytes() == 0)`. -/
def SharedFIFO.EoF (s : SharedFIFO) : Bool :=
  s.error || (s.closed && s.AvailableBytes == 0)

/-- `SharedFIFO::Read(count)`: error state fails first, then closed with
nothing available reports end of file; when open with too few bytes the
call waits (`blocked`); otherwise it delegates to `FIFO::Read`. -/
def SharedFIFO.Read (s : SharedFIFO) (count : Nat) : ReadOutcome × SharedFIFO :=
  let available := s.AvailableBytes
  if s.error = true then (.err .errorState, s)
  else if s.closed = true ∧ available = 0 then (.err .endOfFile, s)
  else
    let real_count := if count = 0 then available else count
    if s.closed = false ∧ available < real_count then (.blocked, s)
    else
      match s.fifo.Read real_count with
      | (.ok d, f) => (.ok d, { s with fifo := f })
      | (.err e, f) => (.err e, { s with fifo := f })

/-- `SharedFIFO::Extract(count)`: error state fails first; when open and
the requested `count` exceeds what is available the call waits; otherwise
it delegates to `FIFO::Extract` with the resolved count. -/
def SharedFIFO.Extract (s : SharedFIFO) (count : Nat) : ReadOutcome × SharedFIFO :=
  if s.error = true then (.err .errorState, s)
  else
    let real_count := if count = 0 then s.AvailableBytes else count
    if s.closed = false ∧ s.AvailableBytes < count then (.blocked, s)
    else
      match s.fifo.Extract real_count with
      | (.ok d, f) => (.ok d, { s with fifo := f })
      | (.err e, f) => (.err e, { s with fifo := f })

/-- `SharedFIFO::Peek(count)`: same gate structure as `Read` but delegates
to `FIFO::Peek`, leaving the cursor where it is. -/
def SharedFIFO.Peek (s : SharedFIFO) (count : Nat) : ReadOutcome × SharedFIFO :=
  let available := s.AvailableBytes
  if s.error = true then (.err .errorState, s)
  else if s.closed = true ∧ available = 0 then (.err .endOfFile, s)
  else
    let real_count := if count = 0 then available else count
    if s.closed = false ∧ available < real_count then (.blocked, s)
    else
      match s.fifo.Peek real_count with
      | (.ok d, f) => (.ok d, { s with fifo := f })
      | (.err e, f) => (.err e, { s with fifo := f })

/-- `SharedFIFO::Write(data)`: rejected once closed or errored, leaving
the state untouched; otherwise the bytes are appended (an empty write
succeeds without changing the store) and waiters are notified. -/
def SharedFIFO.Write (s : SharedFIFO) (data : List Byte) : WriteResult × SharedFIFO :=
  if s.closed = true ∨ s.error = true then (.err .closedOrError, s)
  else if data.isEmpty then (.ok, s)
  else (.ok, { s with fifo := ⟨s.fifo.buffer ++ data, s.fifo.pos⟩ })

/-- `SharedFIFO::Clear` (under lock, then notify). -/
def SharedFIFO.Clear (s : SharedFIFO) : SharedFIFO := { s with fifo := s.fifo.Clear }

/-- `SharedFIFO::Clean` (under lock, then notify). -/
def SharedFIFO.Clean (s : SharedFIFO) : SharedFIFO := { s with fifo := s.fifo.Clean }

/-- `SharedFIFO::Seek` (under lock, then notify). -/
def SharedFIFO.Seek (s : SharedFIFO) (offset : Int) (mode : Position) : SharedFIFO :=
  { s with fifo := s.fifo.Seek offset mode }

/-- `SharedFIFO::Skip(count)`: replicates `FIFO::Skip` under the lock,
calling the base-class `Clean` directly. -/
def SharedFIFO.Skip (s : SharedFIFO) (count : Nat) : SharedFIFO :=
  if count = 0 then s
  else
    let f2 : FIFO :=
      if s.fifo.buffer.length ≤ s.fifo.pos + count then ⟨s.fifo.buffer, s.fifo.buffer.length⟩
      else ⟨s.fifo.buffer, s.fifo.pos + count⟩
    { s with fifo := f2.Clean }

/-- One `FIFO` operation, for reasoning about operation sequences. -/
inductive FOp
  | write (data : List Byte)
  | read (count : Nat)
  | extract (count : Nat)
  | peek (count : Nat)
  | seek (offset : Int) (mode : Position)
  | skip (count : Nat)
  | clean
  | clear

/-- State transition of one `FIFO` operation (results discarded). -/
def FIFO.step (f : FIFO) : FOp → FIFO
  | .write d => f.Write d
  | .read c => (f.Read c).2
  | .extract c => (f.Extract c).2
  | .peek c => (f.Peek c).2
  | .seek o m => f.Seek o m
  | .skip c => f.Skip c
  | .clean => f.Clean
  | .clear => f.Clear

/-- Run a sequence of `FIFO` operations. -/
def FIFO.run (f : FIFO) (ops : List FOp) : FIFO := ops.foldl FIFO.step f

/-- One `SharedFIFO` operation, for reasoning about interleavings. -/
inductive SOp
  | write (data : List Byte)
  | close
  | setErrorFlag
  | read (count : Nat)
  | extract (count : Nat)
  | peek (count : Nat)
  | seek (offset : Int) (mode : Position)
  | skip (count : Nat)
  | clean
  | clear

/-- State transition of one `SharedFIFO` operation (results discarded; a
call that would block leaves the state unchanged). -/
def SharedFIFO.step (s : SharedFIFO) : SOp → SharedFIFO
  | .write d => (s.Write d).2
  | .close => s.Close
  | .setErrorFlag => s.SetError
  | .read c => (s.Read c).2
  | .extract c => (s.Extract c).2
  | .peek c => (s.Peek c).2
  | .seek o m => s.Seek o m
  | .skip c => s.Skip c
  | .clean => s.Clean
  | .clear => s.Clear

/-- Run a sequence of `SharedFIFO` operations. -/
def SharedFIFO.run (s : SharedFIFO) (ops : List SOp) : SharedFIFO :=
  ops.foldl SharedFIFO.step s

/-- Queue identifier: `Producer`/`Consumer` handles hold shared ownership
of one `SharedFIFO`; we model the heap of queues as a list and a handle
as an index into it. -/
abbrev QId := Nat

/-- A `Producer` handle: write capability over one shared queue. -/
structure Producer where
  id : QId
deriving DecidableEq

/-- A `Consumer` handle: read capability over one shared queue. -/
structure Consumer where
  id : QId
deriving DecidableEq

/-- The heap of shared queues live in the process. -/
structure World where
  queues : List SharedFIFO

/-- The queue a handle with identifier `id` refers to (a live handle's
identifier always indexes an allocated queue). -/
def World.getQ (w : World) (id : QId) : SharedFIFO :=
  w.queues.getD id SharedFIFO.init

/-- `Producer::SetError` on the queue with identifier `id`. -/
def World.setErrorAt (w : World) (id : QId) : World :=
  match w.queues[id]? with
  | none => w
  | some q => ⟨w.queues.set id q.SetError⟩

/-- `Producer::Write`: delegate to the shared queue. -/
def Producer.write (pr : Producer) (data : List Byte) (w : World) : WriteResult × World :=
  let r := (w.getQ pr.id).Write data
  (r.1, ⟨w.queues.set pr.id r.2⟩)

/-- `Producer::Consumer()`: a new read handle over the same queue. -/
def Producer.consumer (pr : Producer) : Consumer := ⟨pr.id⟩

/-- `Consumer::Read`: delegate to the shared queue. -/
def Consumer.read (c : Consumer) (count : Nat) (w : World) : ReadOutcome × World :=
  let r := (w.getQ c.id).Read count
  (r.1, ⟨w.queues.set c.id r.2⟩)

/-- `Pipeline` execution modes. -/
inductive ExecutionMode
  | Sync
  | Async
deriving DecidableEq

/-- A pipeline stage: `(Consumer, Producer) -> ()`, modelled as a world
transformer given its two endpoints (its body runs on a worker thread or,
for the last stage in `Sync` mode, inline). -/
abbrev PipeFn := Consumer → Producer → World → World

/-- `Pipeline` orchestrator state: `m_pipes`, `m_producers` (as queue
identifiers) and `m_threads` (as a count of stored worker threads). -/
structure Pipeline where
  pipes : List PipeFn
  producers : List QId
  threads : Nat

/-- Default-constructed `Pipeline()`. -/
def Pipeline.init : Pipeline := ⟨[], [], 0⟩

/-- `Pipeline::AddPipe`: append a stage function. -/
def Pipeline.AddPipe (p : Pipeline) (f : PipeFn) : Pipeline :=
  { p with pipes := p.pipes ++ [f] }

/-- `Pipeline::SetError`: call `SetError()` on each stored intermediate
producer. -/
def Pipeline.SetErrorW (p : Pipeline) (w : World) : World :=
  p.producers.foldl World.setErrorAt w

/-- `Pipeline::Process(buffer, mode)`: join any previous run's threads;
with zero stages return the input unchanged; otherwise allocate one fresh
`Producer` (fresh queue) per stage, spawn worker threads for all stages
but the last, run the last inline (`Sync`, joining and clearing the
worker list before returning) or on its own thread (`Async`), and return
the last producer's `Consumer`. The concurrent stage bodies themselves
are outside the sequential embedding; the orchestrator's own state
(producer identifiers, thread list, returned handle, queue allocation) is
modelled faithfully. -/
def Pipeline.Process (p : Pipeline) (input : Consumer) (mode : ExecutionMode) (w : World) :
    Consumer × Pipeline × World :=
  let p0 : Pipeline := { p with threads := 0 }
  if p0.pipes.isEmpty then (input, p0, w)
  else
    let n := p0.pipes.length
    let base := w.queues.length
    let prods := (List.range n).map (fun i => base + i)
    let w1 : World := ⟨w.queues ++ List.replicate n SharedFIFO.init⟩
    let tcount : Nat :=
      match mode with
      | .Async => n
      | .Sync => 0
    (⟨base + (n - 1)⟩, { p0 with producers := prods, threads := tcount }, w1)

/-- One externally visible `Pipeline` operation. -/
inductive POp
  | addPipe (f : PipeFn)
  | process (input : Consumer) (mode : ExecutionMode)
  | setErrorAll

/-- State transition of one `Pipeline` operation over the pipeline and
the queue heap. -/
def stepP (pw : Pipeline × World) : POp → Pipeline × World
  | .addPipe f => (pw.1.AddPipe f, pw.2)
  | .process input mode =>
      let r := pw.1.Process input mode pw.2
      (r.2.1, r.2.2)
  | .setErrorAll => (pw.1, pw.1.SetErrorW pw.2)

/-- Run a sequence of `Pipeline` operations from a start configuration. -/
def runP (start : Pipeline × World) (ops : List POp) : Pipeline × World :=
  ops.foldl stepP start

lemma FIFO.pos_le_of_available_pos (f : FIFO) (h : 0 < f.AvailableBytes) :
    f.pos ≤ f.buffer.length := by
  by_contra hc
  simp [FIFO.AvailableBytes, hc] at h

lemma FIFO.available_eq (f : FIFO) (h : f.pos ≤ f.buffer.length) :
    f.AvailableBytes = f.buffer.length - f.pos := by
  simp [FIFO.AvailableBytes, h]

/-- C1: for every `FIFO`, `Read`/`Extract`/`Peek` with `count == 0` return
all available bytes (from the read position to the end) and fail with an
insufficient-data error exactly when zero bytes are available; with
`count > 0` they return exactly `count` bytes when `count` is at most the
available bytes, and fail returning no bytes and leaving the state
unchanged when `count` exceeds the available bytes. -/
theorem C1_count_conventions (f : FIFO) (count : Nat) :
    ((count = 0 ∧ f.AvailableBytes = 0) →
        f.Read count = (.err .insufficientData, f)
      ∧ f.Extract count = (.err .insufficientData, f)
      ∧ f.Peek count = (.err .insufficientData, f))
  ∧ ((count = 0 ∧ 0 < f.AvailableBytes) →
        (f.Read count).1 = .ok (f.buffer.drop f.pos)
      ∧ (f.Extract count).1 = .ok (f.buffer.drop f.pos)
      ∧ (f.Peek count).1 = .ok (f.buffer.drop f.pos))
  ∧ ((0 < count ∧ count ≤ f.AvailableBytes) →
        ∃ d : List Byte, d.length = count
      ∧ (f.Read count).1 = .ok d
      ∧ (f.Extract count).1 = .ok d
      ∧ (f.Peek count).1 = .ok d)
  ∧ ((0 < count ∧ f.AvailableBytes < count) →
        f.Read count = (.err .insufficientData, f)
      ∧ f.Extract count = (.err .insufficientData, f)
      ∧ f.Peek count = (.err .insufficientData, f)) := by
  refine ⟨?_, ?_, ?_, ?_⟩
  · rintro ⟨hc, ha⟩
    subst hc
    refine ⟨?_, ?_, ?_⟩ <;> simp [FIFO.Read, FIFO.Extract, FIFO.Peek, ha]
  · rintro ⟨hc, ha⟩
    subst hc
    have hple := f.pos_le_of_available_pos ha
    have hdrop : (f.buffer.drop f.pos).take f.AvailableBytes = f.buffer.drop f.pos := by
      rw [f.available_eq hple, ← List.length_drop, List.take_length]
    refine ⟨?_, ?_, ?_⟩ <;>
      simp [FIFO.Read, FIFO.Extract, FIFO.Peek, ha.ne', hdrop]
  · rintro ⟨hc, hle⟩
    have h0 : ¬ f.AvailableBytes = 0 := by omega
    have h1 : ¬ f.AvailableBytes < count := by omega
    have hple : f.pos ≤ f.buffer.length := f.pos_le_of_available_pos (by omega)
    refine ⟨(f.buffer.drop f.pos).take count, ?_, ?_, ?_, ?_⟩
    · rw [List.length_take, List.length_drop]
      have := f.available_eq hple
      omega
    · simp [FIFO.Read, h0, hc.ne', h1]
    · simp [FIFO.Extract, h0, hc.ne', h1]
    · simp [FIFO.Peek, h0, hc.ne', h1]
  · rintro ⟨hc, hlt⟩
    by_cases h0 : f.AvailableBytes = 0
    · refine ⟨?_, ?_, ?_⟩ <;> simp [FIFO.Read, FIFO.Extract, FIFO.Peek, h0]
    · refine ⟨?_, ?_, ?_⟩ <;>
        simp [FIFO.Read, FIFO.Extract, FIFO.Peek, h0, hc.ne', hlt]

/-- Witness for C1 at the buffer `[1,2,3]`, cursor 0, `count = 2`. -/
theorem C1_count_conventions_witness :
    (0 < 2 ∧ 2 ≤ FIFO.AvailableBytes ⟨[1, 2, 3], 0⟩)
  ∧ ∃ d : List Byte, d.length = 2
      ∧ (FIFO.Read ⟨[1, 2, 3], 0⟩ 2).1 = .ok d
      ∧ (FIFO.Extract ⟨[1, 2, 3], 0⟩ 2).1 = .ok d
      ∧ (FIFO.Peek ⟨[1, 2, 3], 0⟩ 2).1 = .ok d :=
  ⟨⟨by decide, by decide⟩,
    (C1_count_conventions ⟨[1, 2, 3], 0⟩ 2).2.2.1 ⟨by decide, by decide⟩⟩

/-- C2: after every interleaving of `SharedFIFO` operations starting from
a fresh queue, `EoF()` holds exactly when the error flag is set, or the
closed flag is set and `AvailableBytes()` is 0. -/
theorem C2_eof_characterisation (ops : List SOp) :
    (SharedFIFO.run SharedFIFO.init ops).EoF
      = ((SharedFIFO.run SharedFIFO.init ops).error
        || ((SharedFIFO.run SharedFIFO.init ops).closed
          && ((SharedFIFO.run SharedFIFO.init ops).AvailableBytes == 0))) :=
  rfl

/-- C3: on a `SharedFIFO` whose error flag is set, `Read`, `Extract` and
`Peek` fail immediately with the error-state failure for every count,
leaving the whole state (including the read position) unchanged. -/
theorem C3_error_state_read_failure (s : SharedFIFO) (count : Nat)
    (h : s.error = true) :
    s.Read count = (.err .errorState, s)
  ∧ s.Extract count = (.err .errorState, s)
  ∧ s.Peek count = (.err .errorState, s) := by
  refine ⟨?_, ?_, ?_⟩ <;>
    simp [SharedFIFO.Read, SharedFIFO.Extract, SharedFIFO.Peek, h]

/-- Witness for C3 on an errored queue holding one unread byte. -/
theorem C3_error_state_read_failure_witness :
    (⟨⟨[5], 0⟩, false, true⟩ : SharedFIFO).error = true
  ∧ (SharedFIFO.Read ⟨⟨[5], 0⟩, false, true⟩ 1
        = (.err .errorState, ⟨⟨[5], 0⟩, false, true⟩)
    ∧ SharedFIFO.Extract ⟨⟨[5], 0⟩, false, true⟩ 1
        = (.err .errorState, ⟨⟨[5], 0⟩, false, true⟩)
    ∧ SharedFIFO.Peek ⟨⟨[5], 0⟩, false, true⟩ 1
        = (.err .errorState, ⟨⟨[5], 0⟩, false, true⟩)) :=
  ⟨rfl, C3_error_state_read_failure ⟨⟨[5], 0⟩, false, true⟩ 1 rfl⟩

lemma SharedFIFO.Read_flags (s : SharedFIFO) (c : Nat) :
    (s.Read c).2.closed = s.closed ∧ (s.Read c).2.error = s.error := by
  simp only [SharedFIFO.Read]
  split_ifs <;> first
    | exact ⟨rfl, rfl⟩
    | (split <;> exact ⟨rfl, rfl⟩)

lemma SharedFIFO.Extract_flags (s : SharedFIFO) (c : Nat) :
    (s.Extract c).2.closed = s.closed ∧ (s.Extract c).2.error = s.error := by
  simp only [SharedFIFO.Extract]
  split_ifs <;> first
    | exact ⟨rfl, rfl⟩
    | (split <;> exact ⟨rfl, rfl⟩)

lemma SharedFIFO.Peek_flags (s : SharedFIFO) (c : Nat) :
    (s.Peek c).2.closed = s.closed ∧ (s.Peek c).2.error = s.error := by
  simp only [SharedFIFO.Peek]
  split_ifs <;> first
    | exact ⟨rfl, rfl⟩
    | (split <;> exact ⟨rfl, rfl⟩)

lemma SharedFIFO.Write_flags (s : SharedFIFO) (d : List Byte) :
    (s.Write d).2.closed = s.closed ∧ (s.Write d).2.error = s.error := by
  simp only [SharedFIFO.Write]
  split_ifs <;> exact ⟨rfl, rfl⟩

lemma SharedFIFO.Skip_flags (s : SharedFIFO) (c : Nat) :
    (s.Skip c).closed = s.closed ∧ (s.Skip c).error = s.error := by
  simp only [SharedFIFO.Skip]
  split_ifs <;> exact ⟨rfl, rfl⟩

/-- No `SharedFIFO` operation ever resets the `closed` or `error` flag. -/
lemma SharedFIFO.step_flag_mono (s : SharedFIFO) (op : SOp) :
    (s.closed = true → (s.step op).closed = true)
  ∧ (s.error = true → (s.step op).error = true) := by
  cases op with
  | write d =>
      exact ⟨fun h => (s.Write_flags d).1.trans h, fun h => (s.Write_flags d).2.trans h⟩
  | close => exact ⟨fun _ => rfl, fun h => h⟩
  | setErrorFlag => exact ⟨fun h => h, fun _ => rfl⟩
  | read c =>
      exact ⟨fun h => (s.Read_flags c).1.trans h, fun h => (s.Read_flags c).2.trans h⟩
  | extract c =>
      exact ⟨fun h => (s.Extract_flags c).1.trans h, fun h => (s.Extract_flags c).2.trans h⟩
  | peek c =>
      exact ⟨fun h => (s.Peek_flags c).1.trans h, fun h => (s.Peek_flags c).2.trans h⟩
  | seek o m => exact ⟨fun h => h, fun h => h⟩
  | skip c =>
      exact ⟨fun h => (s.Skip_flags c).1.trans h, fun h => (s.Skip_flags c).2.trans h⟩
  | clean => exact ⟨fun h => h, fun h => h⟩
  | clear => exact ⟨fun h => h, fun h => h⟩

lemma SharedFIFO.run_flag_mono (ops : List SOp) : ∀ (s : SharedFIFO),
    (s.closed = true → (s.run ops).closed = true)
  ∧ (s.error = true → (s.run ops).error = true) := by
  induction ops with
  | nil => exact fun s => ⟨id, id⟩
  | cons op rest ih =>
      exact fun s =>
        ⟨fun h => ((ih (s.step op)).1 ((s.step_flag_mono op).1 h)),
         fun h => ((ih (s.step op)).2 ((s.step_flag_mono op).2 h))⟩

/-- C4: once `Close()` (or `SetError()`) has been called on a
`SharedFIFO`, every subsequent `Write` — after any further sequence of
operations — fails and leaves the whole state (size, stored bytes, read
position) unchanged. -/
theorem C4_closed_write_rejected (s0 : SharedFIFO) (ops : List SOp) (data : List Byte) :
    ((s0.Close.run ops).Write data = (.err .closedOrError, s0.Close.run ops))
  ∧ ((s0.SetError.run ops).Write data = (.err .closedOrError, s0.SetError.run ops)) := by
  constructor
  · have h2 : (s0.Close.run ops).closed = true ∨ (s0.Close.run ops).error = true :=
      .inl ((SharedFIFO.run_flag_mono ops s0.Close).1 rfl)
    rw [SharedFIFO.Write, if_pos h2]
  · have h2 : (s0.SetError.run ops).closed = true ∨ (s0.SetError.run ops).error = true :=
      .inr ((SharedFIFO.run_flag_mono ops s0.SetError).2 rfl)
    rw [SharedFIFO.Write, if_pos h2]

lemma FIFO.Peek_snd (f : FIFO) (c : Nat) : (f.Peek c).2 = f := by
  simp only [FIFO.Peek]
  split_ifs <;> rfl

/-- Every single `FIFO` operation preserves `pos ≤ len(store)`. -/
lemma FIFO.step_inv (f : FIFO) (op : FOp) (h : f.pos ≤ f.buffer.length) :
    (f.step op).pos ≤ (f.step op).buffer.length := by
  have ha := f.available_eq h
  cases op with
  | write d =>
      simp only [FIFO.step, FIFO.Write]
      split_ifs
      · exact h
      · simp only [List.length_append]; omega
  | read c =>
      simp only [FIFO.step, FIFO.Read]
      by_cases h1 : f.AvailableBytes = 0
      · simp only [if_pos h1]; exact h
      · simp only [if_neg h1]
        by_cases h2 : f.AvailableBytes < (if c = 0 then f.AvailableBytes else c)
        · simp only [if_pos h2]; exact h
        · simp only [if_neg h2]
          show f.pos + (if c = 0 then f.AvailableBytes else c) ≤ f.buffer.length
          have hr : (if c = 0 then f.AvailableBytes else c) ≤ f.AvailableBytes :=
            Nat.le_of_not_lt h2
          omega
  | extract c =>
      simp only [FIFO.step, FIFO.Extract]
      split_ifs <;>
        first
          | exact h
          | (simp only [List.length_append, List.length_take, List.length_drop]; omega)
  | peek c => rw [FIFO.step, f.Peek_snd c]; exact h
  | seek o m =>
      simp only [FIFO.step, FIFO.Seek]
      split_ifs with h1 h2
      · exact Nat.zero_le _
      · exact le_refl _
      · exact Int.toNat_le.mpr (Int.not_lt.mp h2)
  | skip c =>
      simp only [FIFO.step, FIFO.Skip, FIFO.Clean]
      split_ifs <;> first | exact h | simp
  | clean =>
      simp only [FIFO.step, FIFO.Clean]
      split_ifs <;> simp
  | clear => simp [FIFO.step, FIFO.Clear]

lemma FIFO.run_inv (ops : List FOp) : ∀ (f : FIFO),
    f.pos ≤ f.buffer.length → (f.run ops).pos ≤ (f.run ops).buffer.length := by
  induction ops with
  | nil => exact fun _ h => h
  | cons op rest ih => exact fun f h => ih (f.step op) (f.step_inv op h)

/-- C5: starting from a freshly constructed buffer (empty or holding
initial data, cursor 0), after any sequence of `Write`, `Read`,
`Extract`, `Peek`, `Seek`, `Skip`, `Clean`, `Clear` operations the read
position satisfies `0 ≤ pos ≤ len(store)`. -/
theorem C5_cursor_invariant (data : List Byte) (ops : List FOp) :
    0 ≤ (FIFO.run ⟨data, 0⟩ ops).pos
  ∧ (FIFO.run ⟨data, 0⟩ ops).pos ≤ (FIFO.run ⟨data, 0⟩ ops).buffer.length :=
  ⟨Nat.zero_le _, FIFO.run_inv ops ⟨data, 0⟩ (Nat.zero_le _)⟩

/-- C6 as stated is false at `n = 0`: on the one-byte buffer `[7]`,
`Read(0)` succeeds returning `[7]` and consumes all available bytes, and
after the no-op `Seek(-0, Relative)` the second `Read(0)` fails with
insufficient data instead of succeeding with the same bytes. -/
theorem C6_counterexample :
    (FIFO.Read ⟨[7], 0⟩ 0).1 = .ok [7]
  ∧ ((((FIFO.Read ⟨[7], 0⟩ 0).2).Seek (-(0 : Int)) .Relative).Read 0).1
      = .err .insufficientData := by
  decide

/-- C6 amended: for every `n > 0` such that `Read(n)` succeeds, reading
again after `Seek(-n, Relative)` succeeds and returns the same bytes. -/
theorem C6_amended_read_seek_read (f : FIFO) (n : Nat) (d : List Byte)
    (hn : 0 < n) (h : (f.Read n).1 = .ok d) :
    ((((f.Read n).2).Seek (-(n : Int)) .Relative).Read n).1 = .ok d := by
  have h0 : ¬ f.AvailableBytes = 0 := by
    intro h0
    simp [FIFO.Read, h0] at h
  have h1 : ¬ f.AvailableBytes < n := by
    intro h1
    simp [FIFO.Read, h0, hn.ne', h1] at h
  have hple : f.pos ≤ f.buffer.length :=
    f.pos_le_of_available_pos (Nat.pos_of_ne_zero h0)
  have hsnd : (f.Read n).2 = ⟨f.buffer, f.pos + n⟩ := by
    simp [FIFO.Read, h0, hn.ne', h1]
  have hseek : FIFO.Seek ⟨f.buffer, f.pos + n⟩ (-(n : Int)) .Relative
      = ⟨f.buffer, f.pos⟩ := by
    simp only [FIFO.Seek]
    split_ifs with h2 h3
    · exfalso; omega
    · exfalso
      have hlen := f.available_eq hple
      omega
    · simp only [FIFO.mk.injEq, true_and]
      omega
  rw [hsnd, hseek]
  exact h

/-- Witness for the amended C6 at the buffer `[7, 8]`, cursor 0, `n = 1`. -/
theorem C6_amended_witness :
    0 < 1 ∧ (FIFO.Read ⟨[7, 8], 0⟩ 1).1 = .ok [7]
  ∧ ((((FIFO.Read ⟨[7, 8], 0⟩ 1).2).Seek (-(1 : Int)) .Relative).Read 1).1 = .ok [7] :=
  ⟨by decide, by decide,
    C6_amended_read_seek_read ⟨[7, 8], 0⟩ 1 [7] (by decide) (by decide)⟩

/-- A positive `Skip(count)` clamps the cursor and compacts: only the
bytes past the clamped cursor remain, with the cursor reset to 0. -/
lemma FIFO.Skip_eq (f : FIFO) (count : Nat) (hc : 0 < count) :
    f.Skip count = ⟨f.buffer.drop (min (f.pos + count) f.buffer.length), 0⟩ := by
  obtain ⟨b, p⟩ := f
  rw [FIFO.Skip, if_neg hc.ne']
  by_cases hlen : b.length ≤ p + count
  · rw [if_pos hlen, FIFO.Clean, Nat.min_eq_right hlen]
    by_cases h0 : 0 < b.length
    · rw [if_pos ⟨h0, le_refl _⟩]
    · rw [if_neg (fun hco => h0 hco.1)]
      have hnil : b = [] := List.length_eq_zero.mp (Nat.eq_zero_of_not_pos h0)
      simp [hnil]
  · rw [if_neg hlen, FIFO.Clean,
      if_pos ⟨Nat.add_pos_right p hc, Nat.le_of_lt (Nat.lt_of_not_le hlen)⟩,
      Nat.min_eq_left (Nat.le_of_lt (Nat.lt_of_not_le hlen))]

/-- C9: for every `FIFO` (and `SharedFIFO`), a positive `Skip(count)`
advances the cursor by `count` clamped to the end and then compacts: the
cursor ends at 0, the store holds exactly the bytes unread after the
skip, and `Size()` equals `AvailableBytes()`; `Skip(0)` changes nothing.
`SharedFIFO::Skip` performs exactly `FIFO::Skip` on the store, leaving
the flags alone. -/
theorem C9_skip_compacts (f : FIFO) (s : SharedFIFO) (count : Nat) :
    (0 < count →
        (f.Skip count).pos = 0
      ∧ (f.Skip count).buffer = f.buffer.drop (min (f.pos + count) f.buffer.length)
      ∧ (f.Skip count).Size = (f.Skip count).AvailableBytes
      ∧ s.Skip count = { s with fifo := s.fifo.Skip count })
  ∧ f.Skip 0 = f ∧ s.Skip 0 = s := by
  refine ⟨?_, by simp [FIFO.Skip], by simp [SharedFIFO.Skip]⟩
  intro hc
  have hS : s.Skip count = { s with fifo := s.fifo.Skip count } := by
    simp [SharedFIFO.Skip, FIFO.Skip, hc.ne']
  rw [f.Skip_eq count hc]
  refine ⟨rfl, rfl, ?_, hS⟩
  simp [FIFO.Size, FIFO.AvailableBytes]

/-- Witness for C9 at the buffer `[1,2,3,4]`, cursor 1, `count = 2`, and
a shared queue holding `[9]`. -/
theorem C9_skip_compacts_witness :
    0 < 2
  ∧ ((FIFO.Skip ⟨[1, 2, 3, 4], 1⟩ 2).pos = 0
    ∧ (FIFO.Skip ⟨[1, 2, 3, 4], 1⟩ 2).buffer
        = [1, 2, 3, 4].drop (min (1 + 2) [1, 2, 3, 4].length)
    ∧ (FIFO.Skip ⟨[1, 2, 3, 4], 1⟩ 2).Size = (FIFO.Skip ⟨[1, 2, 3, 4], 1⟩ 2).AvailableBytes
    ∧ SharedFIFO.Skip ⟨⟨[9], 0⟩, false, false⟩ 2
        = { (⟨⟨[9], 0⟩, false, false⟩ : SharedFIFO) with
              fifo := FIFO.Skip ⟨[9], 0⟩ 2 }) :=
  ⟨by decide, (C9_skip_compacts ⟨[1, 2, 3, 4], 1⟩ ⟨⟨[9], 0⟩, false, false⟩ 2).1 (by decide)⟩

lemma World.getQ_eq (w : World) (i : QId) :
    w.getQ i = (w.queues[i]?).getD SharedFIFO.init := by
  rw [World.getQ, List.getD_eq_getElem?_getD]

lemma World.getQ_set_self (l : List SharedFIFO) (i : QId) (a : SharedFIFO)
    (hi : i < l.length) : (⟨l.set i a⟩ : World).getQ i = a := by
  rw [World.getQ_eq]
  simp [List.getElem?_set_eq_of_lt a hi]

lemma World.getQ_set_ne (l : List SharedFIFO) (i j : QId) (a : SharedFIFO)
    (hne : i ≠ j) : (⟨l.set i a⟩ : World).getQ j = (⟨l⟩ : World).getQ j := by
  rw [World.getQ_eq, World.getQ_eq]
  rw [List.getElem?_set_ne hne]

lemma World.setErrorAt_length (w : World) (i : QId) :
    (w.setErrorAt i).queues.length = w.queues.length := by
  rw [World.setErrorAt]
  cases h : w.queues[i]? <;> simp

lemma World.getQ_setErrorAt_ne (w : World) (i j : QId) (hne : j ≠ i) :
    (w.setErrorAt i).getQ j = w.getQ j := by
  rw [World.setErrorAt]
  cases h : w.queues[i]?
  · rfl
  · exact World.getQ_set_ne w.queues i j _ (Ne.symm hne)

lemma World.getQ_setErrorAt_self (w : World) (i : QId) (hi : i < w.queues.length) :
    (w.setErrorAt i).getQ i = (w.getQ i).SetError := by
  rw [World.setErrorAt]
  cases h : w.queues[i]? with
  | none =>
      exact absurd hi (Nat.not_lt.mpr (List.getElem?_eq_none_iff.mp h))
  | some q =>
      rw [World.getQ_set_self w.queues i _ hi, World.getQ_eq, h]
      rfl

lemma World.setErrorAt_error_mono (w : World) (i j : QId)
    (h : (w.getQ j).error = true) : ((w.setErrorAt i).getQ j).error = true := by
  by_cases hji : j = i
  · subst hji
    by_cases hlt : j < w.queues.length
    · rw [World.getQ_setErrorAt_self w j hlt]; rfl
    · rw [World.setErrorAt]
      cases hq : w.queues[j]? with
      | none => exact h
      | some q =>
          exact absurd (List.getElem?_eq_some_iff.mp hq).1 hlt
  · rw [World.getQ_setErrorAt_ne w i j hji]; exact h

lemma foldl_setErrorAt_length (ids : List QId) : ∀ (w : World),
    (ids.foldl World.setErrorAt w).queues.length = w.queues.length := by
  induction ids with
  | nil => exact fun _ => rfl
  | cons a rest ih =>
      exact fun w => (ih (w.setErrorAt a)).trans (w.setErrorAt_length a)

lemma foldl_setErrorAt_frame (ids : List QId) : ∀ (w : World) (j : QId),
    j ∉ ids → (ids.foldl World.setErrorAt w).getQ j = w.getQ j := by
  induction ids with
  | nil => exact fun _ _ _ => rfl
  | cons a rest ih =>
      intro w j hj
      have hja : j ≠ a := fun he => hj (he ▸ List.mem_cons_self a rest)
      have hjr : j ∉ rest := fun hm => hj (List.mem_cons_of_mem a hm)
      calc (rest.foldl World.setErrorAt (w.setErrorAt a)).getQ j
          = (w.setErrorAt a).getQ j := ih (w.setErrorAt a) j hjr
        _ = w.getQ j := w.getQ_setErrorAt_ne a j hja

lemma foldl_setErrorAt_error_mono (ids : List QId) : ∀ (w : World) (j : QId),
    (w.getQ j).error = true → ((ids.foldl World.setErrorAt w).getQ j).error = true := by
  induction ids with
  | nil => exact fun _ _ h => h
  | cons a rest ih =>
      exact fun w j h => ih (w.setErrorAt a) j (w.setErrorAt_error_mono a j h)

lemma foldl_setErrorAt_hits (ids : List QId) : ∀ (w : World) (i : QId),
    i ∈ ids → i < w.queues.length →
    ((ids.foldl World.setErrorAt w).getQ i).error = true := by
  induction ids with
  | nil => intro _ _ hm _; cases hm
  | cons a rest ih =>
      intro w i hm hlt
      rcases List.mem_cons.mp hm with he | hm2
      · subst he
        exact foldl_setErrorAt_error_mono rest (w.setErrorAt i) i
          (by rw [w.getQ_setErrorAt_self i hlt]; rfl)
      · exact ih (w.setErrorAt a) i hm2 (by rw [w.setErrorAt_length a]; exact hlt)

lemma Pipeline.pipes_isEmpty_false (p : Pipeline) (hp : p.pipes ≠ []) :
    ({ p with threads := 0 } : Pipeline).pipes.isEmpty = false := by
  simp only [List.isEmpty_eq_false]
  exact hp

lemma Pipeline.Process_empty (p : Pipeline) (input : Consumer)
    (mode : ExecutionMode) (w : World) (hp : p.pipes = []) :
    p.Process input mode w = (input, { p with threads := 0 }, w) := by
  rw [Pipeline.Process, if_pos (by simp [hp])]

lemma Pipeline.Process_producers (p : Pipeline) (input : Consumer)
    (mode : ExecutionMode) (w : World) (hp : p.pipes ≠ []) :
    (p.Process input mode w).2.1.producers
      = (List.range p.pipes.length).map (fun i => w.queues.length + i) := by
  rw [Pipeline.Process, if_neg (by simp [List.isEmpty_eq_false, hp])]

lemma Pipeline.Process_pipes (p : Pipeline) (input : Consumer)
    (mode : ExecutionMode) (w : World) :
    (p.Process input mode w).2.1.pipes = p.pipes := by
  rw [Pipeline.Process]
  split_ifs <;> rfl

lemma Pipeline.Process_threads_sync (p : Pipeline) (input : Consumer) (w : World) :
    (p.Process input .Sync w).2.1.threads = 0 := by
  rw [Pipeline.Process]
  split_ifs <;> rfl

/-- C7: a zero-stage `Pipeline::Process` returns the input `Consumer`
unchanged (same underlying queue, heap untouched) in both execution
modes, so after writing through the original `Producer`, reading all
available bytes from the returned `Consumer` yields exactly the bytes
written. -/
theorem C7_zero_stage_passthrough (p : Pipeline) (mode : ExecutionMode)
    (pr : Producer) (w : World) (data : List Byte)
    (hp : p.pipes = []) (hid : pr.id < w.queues.length)
    (hq : w.getQ pr.id = SharedFIFO.init) (hd : data ≠ []) :
    (p.Process pr.consumer mode w).1 = pr.consumer
  ∧ (p.Process pr.consumer mode w).2.2 = w
  ∧ ((pr.consumer.read 0 (pr.write data w).2).1 = .ok data) := by
  rw [p.Process_empty pr.consumer mode w hp]
  refine ⟨rfl, rfl, ?_⟩
  have hw1 : (pr.write data w).2.getQ pr.id = ((w.getQ pr.id).Write data).2 := by
    rw [Producer.write]
    exact World.getQ_set_self w.queues pr.id _ hid
  have hwrote : ((w.getQ pr.id).Write data).2 = ⟨⟨data, 0⟩, false, false⟩ := by
    rw [hq, SharedFIFO.Write, if_neg (by simp [SharedFIFO.init, FIFO.init]),
      if_neg (by simp [List.isEmpty_eq_false]; exact hd)]
    simp [SharedFIFO.init, FIFO.init]
  have hlen : data.length ≠ 0 := fun h => hd (List.length_eq_zero.mp h)
  rw [Consumer.read]
  show ((( pr.write data w).2.getQ pr.consumer.id).Read 0).1 = .ok data
  rw [show pr.consumer.id = pr.id from rfl, hw1, hwrote]
  rw [SharedFIFO.Read]
  simp only [SharedFIFO.AvailableBytes, FIFO.AvailableBytes, FIFO.Read]
  norm_num [hlen]

/-- Witness for C7: empty pipeline, one-queue heap, write `[3, 4]`. -/
theorem C7_zero_stage_passthrough_witness :
    ((Pipeline.init.pipes = ([] : List PipeFn))
      ∧ (0 : Nat) < (⟨[SharedFIFO.init]⟩ : World).queues.length
      ∧ (⟨[SharedFIFO.init]⟩ : World).getQ 0 = SharedFIFO.init
      ∧ ([3, 4] : List Byte) ≠ [])
  ∧ ((Pipeline.init.Process (Producer.consumer ⟨0⟩) .Sync ⟨[SharedFIFO.init]⟩).1
        = Producer.consumer ⟨0⟩
    ∧ (Pipeline.init.Process (Producer.consumer ⟨0⟩) .Sync ⟨[SharedFIFO.init]⟩).2.2
        = ⟨[SharedFIFO.init]⟩
    ∧ ((Producer.consumer ⟨0⟩).read 0 ((Producer.write ⟨0⟩ [3, 4] ⟨[SharedFIFO.init]⟩)).2).1
        = .ok [3, 4]) :=
  ⟨⟨rfl, by decide, rfl, by decide⟩,
    C7_zero_stage_passthrough Pipeline.init .Sync ⟨0⟩ ⟨[SharedFIFO.init]⟩ [3, 4]
      rfl (by decide) rfl (by decide)⟩

/-- The reachability invariant of `Pipeline`: intermediate producers are
only ever created by a `Process` call with at least one stage, so a
pipeline whose stage list is empty has no stored producers. -/
def Pipeline.goodCounts (p : Pipeline) : Prop := p.pipes = [] → p.producers = []

lemma stepP_good (pw : Pipeline × World) (op : POp) (h : pw.1.goodCounts) :
    (stepP pw op).1.goodCounts := by
  cases op with
  | addPipe f =>
      intro hnil
      exact absurd hnil (by simp [stepP, Pipeline.AddPipe])
  | process input mode =>
      by_cases hp : pw.1.pipes = []
      · intro _
        rw [stepP]
        rw [Pipeline.Process_empty pw.1 input mode pw.2 hp]
        exact h hp
      · intro hnil
        rw [stepP] at hnil
        rw [Pipeline.Process_pipes pw.1 input mode pw.2] at hnil
        exact absurd hnil hp
  | setErrorAll => exact h

lemma runP_good (ops : List POp) : ∀ (pw : Pipeline × World),
    pw.1.goodCounts → (runP pw ops).1.goodCounts := by
  induction ops with
  | nil => exact fun _ h => h
  | cons op rest ih => exact fun pw h => ih (stepP pw op) (stepP_good pw op h)

/-- C8 as stated is false right after `AddPipe`: on a freshly constructed
pipeline, adding one stage leaves the stage count at 1 while the
intermediate-producer count is still 0 (producers are only allocated by
`Process`). -/
theorem C8_counterexample :
    ¬ ((Pipeline.init.AddPipe (fun _ _ w => w)).pipes.length
        = (Pipeline.init.AddPipe (fun _ _ w => w)).producers.length) := by
  simp [Pipeline.init, Pipeline.AddPipe]

/-- C8 amended: after construction both counts are 0 and the thread list
is empty; after every `Process` call on a reachable pipeline the stage
count equals the intermediate-producer count, and in `Sync` mode the
worker-thread list is also empty after `Process` returns; `AddPipe`
leaves the producer list and the thread list unchanged (so the counts
need not match again until the next `Process`). -/
theorem C8_amended_counts (w0 : World) (ops : List POp) (input : Consumer)
    (mode : ExecutionMode) (g : PipeFn) :
    (Pipeline.init.pipes.length = Pipeline.init.producers.length
      ∧ Pipeline.init.threads = 0)
  ∧ (((runP (Pipeline.init, w0) ops).1.Process input mode
        (runP (Pipeline.init, w0) ops).2).2.1.pipes.length
      = ((runP (Pipeline.init, w0) ops).1.Process input mode
          (runP (Pipeline.init, w0) ops).2).2.1.producers.length)
  ∧ (mode = .Sync →
      ((runP (Pipeline.init, w0) ops).1.Process input mode
        (runP (Pipeline.init, w0) ops).2).2.1.threads = 0)
  ∧ (((runP (Pipeline.init, w0) ops).1.AddPipe g).producers
        = (runP (Pipeline.init, w0) ops).1.producers
    ∧ ((runP (Pipeline.init, w0) ops).1.AddPipe g).threads
        = (runP (Pipeline.init, w0) ops).1.threads) := by
  refine ⟨⟨rfl, rfl⟩, ?_, ?_, rfl, rfl⟩
  · by_cases hp : (runP (Pipeline.init, w0) ops).1.pipes = []
    · rw [Pipeline.Process_empty _ input mode _ hp]
      have hprod : (runP (Pipeline.init, w0) ops).1.producers = [] :=
        runP_good ops (Pipeline.init, w0) (fun _ => rfl) hp
      show (runP (Pipeline.init, w0) ops).1.pipes.length
          = (runP (Pipeline.init, w0) ops).1.producers.length
      simp [hp, hprod]
    · rw [Pipeline.Process_pipes _ input mode _,
        Pipeline.Process_producers _ input mode _ hp]
      simp
  · intro hmode
    subst hmode
    exact Pipeline.Process_threads_sync _ input _

/-- Witness for the amended C8: one stage added, then a `Sync` run. -/
theorem C8_amended_counts_witness :
    (ExecutionMode.Sync = ExecutionMode.Sync)
  ∧ (((runP (Pipeline.init, ⟨[]⟩) [.addPipe (fun _ _ w => w)]).1.Process ⟨0⟩ .Sync
        (runP (Pipeline.init, ⟨[]⟩) [.addPipe (fun _ _ w => w)]).2).2.1.pipes.length
      = ((runP (Pipeline.init, ⟨[]⟩) [.addPipe (fun _ _ w => w)]).1.Process ⟨0⟩ .Sync
          (runP (Pipeline.init, ⟨[]⟩) [.addPipe (fun _ _ w => w)]).2).2.1.producers.length)
  ∧ (((runP (Pipeline.init, ⟨[]⟩) [.addPipe (fun _ _ w => w)]).1.Process ⟨0⟩ .Sync
        (runP (Pipeline.init, ⟨[]⟩) [.addPipe (fun _ _ w => w)]).2).2.1.threads = 0) :=
  ⟨rfl,
    (C8_amended_counts ⟨[]⟩ [.addPipe (fun _ _ w => w)] ⟨0⟩ .Sync (fun _ _ w => w)).2.1,
    (C8_amended_counts ⟨[]⟩ [.addPipe (fun _ _ w => w)] ⟨0⟩ .Sync (fun _ _ w => w)).2.2.1 rfl⟩

/-- C10: `Pipeline::SetError` touches exactly the queues of the stored
intermediate producers: with no stored producers (never ran, or zero
stages) it changes nothing; queues outside the producer list are left
untouched and every listed queue gets its error flag set; and after a
`Process` call with at least one stage, the freshly allocated producer
identifiers never include the caller's input queue, so a later
`SetError` leaves the input queue untouched in any heap. -/
theorem C10_set_error_frame (p : Pipeline) (w : World) (input : Consumer)
    (mode : ExecutionMode) (j : QId) :
    (p.producers = [] → p.SetErrorW w = w)
  ∧ (j ∉ p.producers → (p.SetErrorW w).getQ j = w.getQ j)
  ∧ (∀ i, i ∈ p.producers → i < w.queues.length →
      ((p.SetErrorW w).getQ i).error = true)
  ∧ (p.pipes ≠ [] → input.id < w.queues.length →
      input.id ∉ (p.Process input mode w).2.1.producers
      ∧ ∀ w2 : World,
          ((p.Process input mode w).2.1.SetErrorW w2).getQ input.id = w2.getQ input.id) := by
  refine ⟨?_, ?_, ?_, ?_⟩
  · intro h
    rw [Pipeline.SetErrorW, h]
    rfl
  · exact fun h => foldl_setErrorAt_frame p.producers w j h
  · exact fun i hm hlt => foldl_setErrorAt_hits p.producers w i hm hlt
  · intro hp hid
    have hmem : input.id ∉ (p.Process input mode w).2.1.producers := by
      rw [Pipeline.Process_producers p input mode w hp]
      intro hmem
      rcases List.mem_map.mp hmem with ⟨i, _, hi⟩
      have hi2 : w.queues.length + i = input.id := hi
      exact absurd hid
        (Nat.not_lt.mpr (le_of_le_of_eq (Nat.le_add_right w.queues.length i) hi2))
    exact ⟨hmem, fun w2 => foldl_setErrorAt_frame _ w2 input.id hmem⟩

/-- Witness for C10: empty pipeline (`SetError` is a no-op), and a
one-stage pipeline run on a one-queue heap (input queue untouched). -/
theorem C10_set_error_frame_witness :
    ((Pipeline.init.producers = ([] : List QId))
      ∧ Pipeline.init.SetErrorW ⟨[SharedFIFO.init]⟩ = ⟨[SharedFIFO.init]⟩)
  ∧ (((Pipeline.init.AddPipe (fun _ _ w => w)).pipes ≠ ([] : List PipeFn))
      ∧ (0 : QId) < (⟨[SharedFIFO.init]⟩ : World).queues.length
      ∧ (0 : QId) ∉ ((Pipeline.init.AddPipe (fun _ _ w => w)).Process ⟨0⟩ .Async
            ⟨[SharedFIFO.init]⟩).2.1.producers) :=
  ⟨⟨rfl,
      (C10_set_error_frame Pipeline.init ⟨[SharedFIFO.init]⟩ ⟨0⟩ .Async 0).1 rfl⟩,
    by simp [Pipeline.init, Pipeline.AddPipe],
    by decide,
    ((C10_set_error_frame (Pipeline.init.AddPipe (fun _ _ w => w)) ⟨[SharedFIFO.init]⟩
        ⟨0⟩ .Async 0).2.2.2 (by simp [Pipeline.init, Pipeline.AddPipe]) (by decide)).1⟩

end StormByteBuffer
